import Mathlib

/-!
Verification of the result-aggregation and report-rendering logic of the
pytest-html-cn plugin (`pytest_html/plugin.py`), shallowly embedded in Lean.

The embedding covers: the outcome classification and priority-ordered
insertion of result rows (`HTMLReport._appendrow`, `TestResult.__lt__`,
`append_passed` / `append_failed` / `append_skipped` / `append_other`,
`pytest_runtest_logreport`), the summary counters and the displayed total
(`_generate_report`), asset-filename computation and filesystem effects
(`TestResult.create_asset`, `append_extra_html`, `_save_report`), the
data-URI encoding of self-contained attachments (`data_uri`), and the
email templating and transport logic (`SMTP.output_email`, `SMTP.sender`).
-/

namespace PytestHtmlCn

/-- The seven outcome kinds of the plugin, exactly the entries of the
`order` tuple in `TestResult.__lt__` (plugin.py lines 227-237). -/
inductive Outcome where
  | Error
  | Failed
  | Rerun
  | XFailed
  | XPassed
  | Skipped
  | Passed
deriving DecidableEq, BEq, Repr, Fintype

/-- The `order` tuple of `TestResult.__lt__` (plugin.py lines 228-236):
highest display priority first. -/
def order : List Outcome :=
  [.Error, .Failed, .Rerun, .XFailed, .XPassed, .Skipped, .Passed]

/-- `order.index(outcome)`, the sort rank used by `TestResult.__lt__`. -/
def orderIndex (o : Outcome) : Nat := order.indexOf o

/-- A result row as far as ordering is concerned: its classified outcome
plus its arrival index (the position of the ingested event in the event
stream; a ghost decoration used to state stability). -/
structure TestResult where
  outcome : Outcome
  arrival : Nat
deriving DecidableEq, Repr

/-- `TestResult.__lt__` (plugin.py lines 227-237): compare rows by the index
of their outcome in the `order` tuple.  The arrival index is not consulted. -/
def TestResult.lt (a b : TestResult) : Bool :=
  decide (orderIndex a.outcome < orderIndex b.outcome)

/-- Model of Python's `list.insert(n, x)`: insert `x` before position `n`;
an index past the end appends at the end. -/
def list_insert (n : Nat) (x : α) : List α → List α
  | [] => [x]
  | y :: ys =>
    match n with
    | 0 => x :: y :: ys
    | Nat.succ m => y :: list_insert m x ys

/-- Model of Python stdlib `bisect.bisect_right(a, x)` (used by `_appendrow`,
plugin.py line 383), stated by its documented contract: the rightmost
insertion point for `x` in `a`, i.e. the length of the longest leading run
of elements `y` with `not (x < y)`.  On the sorted lists `_appendrow`
maintains this coincides with the stdlib's binary search. -/
def bisect_right (lt : α → α → Bool) : List α → α → Nat
  | [], _ => 0
  | y :: ys, x => if lt x y then 0 else bisect_right lt ys x + 1

/-- `a.insert(bisect.bisect_right(a, x), x)`: the insertion step performed by
`HTMLReport._appendrow` on `self.results` (plugin.py lines 383-384). -/
def py_insort (lt : α → α → Bool) (l : List α) (x : α) : List α :=
  list_insert (bisect_right lt l x) x l

/-- Recursive characterisation of `py_insort`: insert `x` right before the
first element `y` with `lt x y`. -/
def insort_lt (lt : α → α → Bool) (x : α) : List α → List α
  | [] => [x]
  | y :: ys => if lt x y then x :: y :: ys else y :: insort_lt lt x ys

theorem py_insort_eq_insort (lt : α → α → Bool) (l : List α) (x : α) :
    py_insort lt l x = insort_lt lt x l := by
  induction l with
  | nil => rfl
  | cons y ys ih =>
    by_cases h : lt x y
    · simp [py_insort, bisect_right, insort_lt, list_insert, h]
    · simp only [py_insort, bisect_right, insort_lt, h] at *
      simp [list_insert, ← ih, py_insort]

theorem insort_lt_perm (lt : α → α → Bool) (x : α) (l : List α) :
    (insort_lt lt x l).Perm (x :: l) := by
  induction l with
  | nil => exact List.Perm.refl _
  | cons y ys ih =>
    by_cases h : lt x y
    · simp [insort_lt, h]
    · simp only [insort_lt, h, if_neg]
      simpa using (ih.cons y).trans (List.Perm.swap x y ys)

theorem py_insort_perm (lt : α → α → Bool) (l : List α) (x : α) :
    (py_insort lt l x).Perm (x :: l) := by
  rw [py_insort_eq_insort]; exact insort_lt_perm lt x l

/-- The insertion `HTMLReport._appendrow` performs on `self.results`
(plugin.py lines 380-384). -/
def appendrow (results : List TestResult) (r : TestResult) : List TestResult :=
  py_insort TestResult.lt results r

/-- Ingest a stream of classified outcomes, one `_appendrow` per event,
decorating each freshly created row with its arrival index. -/
def ingestAux (start : Nat) (acc : List TestResult) : List Outcome → List TestResult
  | [] => acc
  | o :: os => ingestAux (start + 1) (appendrow acc ⟨o, start⟩) os

/-- The final `self.results` list after ingesting a whole event stream. -/
def ingestAll (outs : List Outcome) : List TestResult := ingestAux 0 [] outs

/-- The arrival-decorated event stream itself, in arrival order. -/
def decorate (start : Nat) : List Outcome → List TestResult
  | [] => []
  | o :: os => ⟨o, start⟩ :: decorate (start + 1) os

/-- Spec-side order for the refinement claim C1, following the spec's words:
outcome-priority rank first (`Error > Failed > Rerun > XFailed > XPassed >
Skipped > Passed`, highest priority = smallest rank first), ties broken by
arrival order. -/
def keyLe (a b : TestResult) : Prop :=
  orderIndex a.outcome < orderIndex b.outcome ∨
    (orderIndex a.outcome = orderIndex b.outcome ∧ a.arrival ≤ b.arrival)

instance : DecidableRel keyLe := fun a b => by
  unfold keyLe; exact inferInstance

/-- Spec-side definition (from the spec's words, for the refinement claim
C1): the stable sort of the arrival-ordered records by outcome-priority
rank.  Since every decorated record carries a distinct arrival index, the
sort by the lexicographic key (rank, arrival) is exactly the stable sort by
rank with ties broken by arrival order. -/
def stable_sort_spec (outs : List Outcome) : List TestResult :=
  List.insertionSort keyLe (decorate 0 outs)

theorem orderIndex_inj : ∀ a b : Outcome, orderIndex a = orderIndex b → a = b := by
  decide

instance : IsTotal TestResult keyLe :=
  ⟨by intro a b; unfold keyLe; omega⟩

instance : IsTrans TestResult keyLe :=
  ⟨by intro a b c hab hbc; unfold keyLe at *; omega⟩

instance : IsAntisymm TestResult keyLe := by
  constructor
  intro a b hab hba
  have hk : orderIndex a.outcome = orderIndex b.outcome ∧ a.arrival = b.arrival := by
    unfold keyLe at hab hba; omega
  have ho : a.outcome = b.outcome := orderIndex_inj _ _ hk.1
  cases a; cases b
  simp_all

theorem sorted_insort_key :
    ∀ (l : List TestResult) (r : TestResult),
      l.Sorted keyLe → (∀ z ∈ l, z.arrival < r.arrival) →
      (insort_lt TestResult.lt r l).Sorted keyLe
  | [], r, _, _ => by simp [insort_lt]
  | y :: ys, r, hs, ha => by
    rw [List.sorted_cons] at hs
    obtain ⟨hy, hys⟩ := hs
    by_cases h : TestResult.lt r y
    · have hlt : orderIndex r.outcome < orderIndex y.outcome := by
        simpa [TestResult.lt] using h
      rw [insort_lt, if_pos h, List.sorted_cons]
      refine ⟨?_, List.sorted_cons.mpr ⟨hy, hys⟩⟩
      intro z hz
      rcases List.mem_cons.mp hz with rfl | hz
      · exact Or.inl hlt
      · have hyz := hy z hz
        unfold keyLe at hyz ⊢
        omega
    · have hge : orderIndex y.outcome ≤ orderIndex r.outcome := by
        simpa [TestResult.lt] using h
      rw [insort_lt, if_neg h, List.sorted_cons]
      constructor
      · intro z hz
        have hz' : z = r ∨ z ∈ ys :=
          List.mem_cons.mp ((insort_lt_perm TestResult.lt r ys).mem_iff.mp hz)
        rcases hz' with rfl | hz'
        · have harr : y.arrival < z.arrival := ha y (List.mem_cons_self _ _)
          unfold keyLe
          omega
        · exact hy z hz'
      · exact sorted_insort_key ys r hys fun z hz => ha z (List.mem_cons_of_mem _ hz)

theorem sorted_appendrow {l : List TestResult} {r : TestResult}
    (hs : l.Sorted keyLe) (ha : ∀ z ∈ l, z.arrival < r.arrival) :
    (appendrow l r).Sorted keyLe := by
  rw [appendrow, py_insort_eq_insort]
  exact sorted_insort_key l r hs ha

theorem ingestAux_spec :
    ∀ (os : List Outcome) (start : Nat) (acc : List TestResult),
      acc.Sorted keyLe → (∀ z ∈ acc, z.arrival < start) →
      (ingestAux start acc os).Sorted keyLe ∧
      (ingestAux start acc os).Perm (acc ++ decorate start os) ∧
      ∀ z ∈ ingestAux start acc os, z.arrival < start + os.length
  | [], start, acc, hs, ha => by
    refine ⟨hs, by simp [ingestAux, decorate], ?_⟩
    simpa [ingestAux] using ha
  | o :: os, start, acc, hs, ha => by
    have hmem : ∀ z ∈ appendrow acc (TestResult.mk o start), z.arrival < start + 1 := by
      intro z hz
      have hz' := (py_insort_perm TestResult.lt acc (TestResult.mk o start)).mem_iff.mp hz
      rcases List.mem_cons.mp hz' with rfl | hz'
      · exact Nat.lt_succ_self start
      · have := ha z hz'; omega
    have ih := ingestAux_spec os (start + 1) (appendrow acc (TestResult.mk o start))
      (sorted_appendrow hs ha) hmem
    have hunfold : ingestAux start acc (o :: os) =
        ingestAux (start + 1) (appendrow acc (TestResult.mk o start)) os := rfl
    refine ⟨hunfold ▸ ih.1, ?_, ?_⟩
    · have h1 : (appendrow acc (TestResult.mk o start) ++ decorate (start + 1) os).Perm
          (TestResult.mk o start :: (acc ++ decorate (start + 1) os)) :=
        (py_insort_perm TestResult.lt acc (TestResult.mk o start)).append_right _
      have h2 : (TestResult.mk o start :: (acc ++ decorate (start + 1) os)).Perm
          (acc ++ TestResult.mk o start :: decorate (start + 1) os) :=
        List.perm_middle.symm
      have h3 : acc ++ TestResult.mk o start :: decorate (start + 1) os =
          acc ++ decorate start (o :: os) := by rw [decorate]
      rw [hunfold]
      exact ih.2.1.trans ((h1.trans h2).trans (h3 ▸ List.Perm.refl _))
    · intro z hz
      rw [hunfold] at hz
      have := ih.2.2 z hz
      simp only [List.length_cons]
      omega

/-- Claim C1: for every sequence of ingested outcome events, the final
`self.results` order is exactly the stable sort of the records by
outcome-priority rank (Error > Failed > Rerun > XFailed > XPassed >
Skipped > Passed, highest first), records of equal rank appearing in
arrival order; and every single `_appendrow` insertion preserves this
ordering of the collection. -/
theorem c1_appendrow_stable_sort (outs : List Outcome) :
    ingestAll outs = stable_sort_spec outs ∧
    ∀ (results : List TestResult) (r : TestResult),
      results.Sorted keyLe → (∀ z ∈ results, z.arrival < r.arrival) →
      (appendrow results r).Sorted keyLe := by
  constructor
  · have h := ingestAux_spec outs 0 [] List.sorted_nil (by simp)
    have hperm : (ingestAll outs).Perm (decorate 0 outs) := by
      simpa [ingestAll] using h.2.1
    have hspec_sorted : (stable_sort_spec outs).Sorted keyLe :=
      List.sorted_insertionSort keyLe _
    have hspec_perm : (stable_sort_spec outs).Perm (decorate 0 outs) :=
      List.perm_insertionSort keyLe _
    exact List.eq_of_perm_of_sorted (hperm.trans hspec_perm.symm) h.1 hspec_sorted
  · exact fun results r hs ha => sorted_appendrow hs ha

/-- Witness for C1 at a concrete event stream and a concrete insertion. -/
theorem c1_appendrow_stable_sort_witness :
    ingestAll [Outcome.Passed, Outcome.Failed, Outcome.Passed, Outcome.Error] =
      stable_sort_spec [Outcome.Passed, Outcome.Failed, Outcome.Passed, Outcome.Error] ∧
    (appendrow [⟨Outcome.Error, 0⟩, ⟨Outcome.Passed, 1⟩] ⟨Outcome.Failed, 2⟩).Sorted keyLe :=
  ⟨(c1_appendrow_stable_sort [Outcome.Passed, Outcome.Failed, Outcome.Passed, Outcome.Error]).1,
   (c1_appendrow_stable_sort []).2 [⟨Outcome.Error, 0⟩, ⟨Outcome.Passed, 1⟩] ⟨Outcome.Failed, 2⟩
     (by decide) (by decide)⟩

/-- Outcome comparison used when `_appendrow` bisects `self.results`:
`TestResult.__lt__` consults only the outcome rank. -/
def outcomeLt (a b : Outcome) : Bool := decide (orderIndex a < orderIndex b)

/-- The mutable aggregation state of `HTMLReport` (plugin.py lines 167-181):
the ordered `self.results` (here reduced to the outcome classification of
each row) and the per-outcome counters.  `self.rerun` is `None` when the
`rerunfailures` plugin is absent (line 179). -/
structure HTMLState where
  results : List Outcome
  errors : Nat
  failed : Nat
  passed : Nat
  skipped : Nat
  xfailed : Nat
  xpassed : Nat
  rerun : Option Nat
deriving DecidableEq, Repr

/-- The `self.results` insertion performed by `_appendrow` for a row with
the given classified outcome. -/
def addRow (s : HTMLState) (o : Outcome) : HTMLState :=
  { s with results := py_insort outcomeLt s.results o }

/-- The outcome classification carried by a pytest report: `report.passed`,
`report.failed`, `report.skipped` are mutually exclusive booleans; `other`
is the fall-through of `pytest_runtest_logreport` (plugin.py 651-659). -/
inductive ReportOutcome where
  | passed
  | failed
  | skipped
  | other
deriving DecidableEq, Repr

/-- The fields of a pytest report consulted by the aggregator: the phase
(`report.when`, absent on collect reports, hence `Option`), the outcome
classification, and the expected-failure flag (`hasattr(report, "wasxfail")`). -/
structure Report where
  when : Option String
  outcome : ReportOutcome
  wasxfail : Bool
deriving DecidableEq, Repr

/-- `HTMLReport.append_passed` (plugin.py lines 393-400). -/
def append_passed (s : HTMLState) (r : Report) : HTMLState :=
  if r.when = some "call" then
    if r.wasxfail then addRow { s with xpassed := s.xpassed + 1 } .XPassed
    else addRow { s with passed := s.passed + 1 } .Passed
  else s

/-- `HTMLReport.append_failed` (plugin.py lines 402-413). -/
def append_failed (s : HTMLState) (r : Report) : HTMLState :=
  if r.when = some "call" then
    if r.wasxfail then addRow { s with xpassed := s.xpassed + 1 } .XPassed
    else addRow { s with failed := s.failed + 1 } .Failed
  else addRow { s with errors := s.errors + 1 } .Error

/-- `HTMLReport.append_skipped` (plugin.py lines 415-421). -/
def append_skipped (s : HTMLState) (r : Report) : HTMLState :=
  if r.wasxfail then addRow { s with xfailed := s.xfailed + 1 } .XFailed
  else addRow { s with skipped := s.skipped + 1 } .Skipped

/-- `HTMLReport.append_other` (plugin.py lines 423-426): `self.rerun += 1`
cannot be performed when `self.rerun` is `None` (it raises `TypeError`),
modelled by `none`. -/
def append_other (s : HTMLState) : Option HTMLState :=
  match s.rerun with
  | none => none
  | some n => some (addRow { s with rerun := some (n + 1) } .Rerun)

/-- `HTMLReport.pytest_runtest_logreport` (plugin.py lines 651-659). -/
def pytest_runtest_logreport (s : HTMLState) (r : Report) : Option HTMLState :=
  match r.outcome with
  | .passed => some (append_passed s r)
  | .failed => some (append_failed s r)
  | .skipped => some (append_skipped s r)
  | .other => append_other s

/-- The state `HTMLReport.__init__` sets up (plugin.py lines 167-181). -/
def initState (hasRerun : Bool) : HTMLState :=
  { results := [], errors := 0, failed := 0, passed := 0, skipped := 0,
    xfailed := 0, xpassed := 0, rerun := if hasRerun then some 0 else none }

/-- Ingest a whole stream of reports, stopping with `none` if any single
event raises. -/
def run_logreports (s : HTMLState) : List Report → Option HTMLState
  | [] => some s
  | r :: rs =>
    match pytest_runtest_logreport s r with
    | none => none
    | some s' => run_logreports s' rs

/-- A concrete event whose outcome classification is none of
passed / failed / skipped. -/
def otherReport : Report := { when := some "call", outcome := .other, wasxfail := false }

/-- Counterexample to claim C2: an event whose outcome classification is not
one of passed, failed or skipped is classified as `Rerun`, not `Error`
(it is dispatched to `append_other`); moreover, when the rerun counter is
`None` (no `rerunfailures` plugin) the ingestion raises rather than
accepting the event. -/
theorem c2_unrecognized_counterexample :
    (pytest_runtest_logreport (initState true) otherReport).map (fun s => s.results) =
      some [Outcome.Rerun] ∧
    Outcome.Rerun ≠ Outcome.Error ∧
    pytest_runtest_logreport (initState false) otherReport = none := by
  decide

/-- Claim C2 amended: for every ingested event whose outcome classification
is not one of passed, failed, or skipped, provided the rerun counter is
initialized (rerunfailures plugin present), the aggregator accepts the
event without raising, classifies the resulting record as `Rerun`, and
increments the rerun counter; when the rerun counter is `None` the
increment raises instead. -/
theorem c2_unrecognized_amended (s : HTMLState) (r : Report) (n : Nat)
    (h1 : r.outcome = .other) (h2 : s.rerun = some n) :
    ∃ s', pytest_runtest_logreport s r = some s' ∧ s'.rerun = some (n + 1) ∧
      s'.results.Perm (Outcome.Rerun :: s.results) := by
  refine ⟨addRow { s with rerun := some (n + 1) } .Rerun, ?_, rfl, py_insort_perm _ _ _⟩
  simp [pytest_runtest_logreport, h1, append_other, h2]

/-- Witness for the amended C2 at a concrete state and event. -/
theorem c2_unrecognized_amended_witness :
    ∃ s', pytest_runtest_logreport (initState true) otherReport = some s' ∧
      s'.rerun = some (0 + 1) ∧ s'.results.Perm (Outcome.Rerun :: (initState true).results) :=
  c2_unrecognized_amended (initState true) otherReport 0 rfl rfl

/-- Claim C5: an expected-failure flag on a passed or failed "call"-phase
event yields `XPassed` and bumps the xpassed counter; on a skipped event
it yields `XFailed` and bumps the xfailed counter. -/
theorem c5_xfail_flag (s : HTMLState) (r : Report) (hx : r.wasxfail = true) :
    ((r.outcome = .passed ∨ r.outcome = .failed) → r.when = some "call" →
      ∃ s', pytest_runtest_logreport s r = some s' ∧ s'.xpassed = s.xpassed + 1 ∧
        s'.results.Perm (Outcome.XPassed :: s.results)) ∧
    (r.outcome = .skipped →
      ∃ s', pytest_runtest_logreport s r = some s' ∧ s'.xfailed = s.xfailed + 1 ∧
        s'.results.Perm (Outcome.XFailed :: s.results)) := by
  constructor
  · intro ho hw
    refine ⟨addRow { s with xpassed := s.xpassed + 1 } .XPassed, ?_, rfl, py_insort_perm _ _ _⟩
    rcases ho with h | h
    · simp [pytest_runtest_logreport, h, append_passed, hw, hx]
    · simp [pytest_runtest_logreport, h, append_failed, hw, hx]
  · intro h
    refine ⟨addRow { s with xfailed := s.xfailed + 1 } .XFailed, ?_, rfl, py_insort_perm _ _ _⟩
    simp [pytest_runtest_logreport, h, append_skipped, hx]

/-- Witness for C5: both conjuncts at concrete events. -/
theorem c5_xfail_flag_witness :
    (∃ s', pytest_runtest_logreport (initState true)
        { when := some "call", outcome := .failed, wasxfail := true } = some s' ∧
      s'.xpassed = (initState true).xpassed + 1 ∧
      s'.results.Perm (Outcome.XPassed :: (initState true).results)) ∧
    (∃ s', pytest_runtest_logreport (initState true)
        { when := some "setup", outcome := .skipped, wasxfail := true } = some s' ∧
      s'.xfailed = (initState true).xfailed + 1 ∧
      s'.results.Perm (Outcome.XFailed :: (initState true).results)) :=
  ⟨(c5_xfail_flag (initState true)
      { when := some "call", outcome := .failed, wasxfail := true } rfl).1 (Or.inr rfl) rfl,
   (c5_xfail_flag (initState true)
      { when := some "setup", outcome := .skipped, wasxfail := true } rfl).2 rfl⟩

/-- Claim C6: a failed event whose phase is not "call" (setup, teardown, or
a collect report with no phase) is classified `Error`, increments the errors
counter, and leaves the failed counter untouched. -/
theorem c6_failed_noncall (s : HTMLState) (r : Report)
    (ho : r.outcome = .failed) (hw : r.when ≠ some "call") :
    ∃ s', pytest_runtest_logreport s r = some s' ∧ s'.errors = s.errors + 1 ∧
      s'.failed = s.failed ∧ s'.results.Perm (Outcome.Error :: s.results) := by
  refine ⟨addRow { s with errors := s.errors + 1 } .Error, ?_, rfl, rfl, py_insort_perm _ _ _⟩
  simp [pytest_runtest_logreport, ho, append_failed, hw]

/-- Witness for C6 at a concrete failed "setup" event. -/
theorem c6_failed_noncall_witness :
    ∃ s', pytest_runtest_logreport (initState true)
        { when := some "setup", outcome := .failed, wasxfail := false } = some s' ∧
      s'.errors = (initState true).errors + 1 ∧ s'.failed = (initState true).failed ∧
      s'.results.Perm (Outcome.Error :: (initState true).results) :=
  c6_failed_noncall (initState true)
    { when := some "setup", outcome := .failed, wasxfail := false } rfl (by decide)

/-- Number of rows of a given outcome kind in the results list. -/
def countO (o : Outcome) : List Outcome → Nat
  | [] => 0
  | x :: xs => (if x = o then 1 else 0) + countO o xs

theorem countO_perm {l₁ l₂ : List Outcome} (h : l₁.Perm l₂) (o : Outcome) :
    countO o l₁ = countO o l₂ := by
  induction h with
  | nil => rfl
  | cons x _ ih => simp [countO, ih]
  | swap x y l => simp [countO]; omega
  | trans _ _ ih₁ ih₂ => omega

/-- Each summary counter equals the number of rows of its kind. -/
def counters_match (s : HTMLState) : Prop :=
  s.passed = countO .Passed s.results ∧
  s.failed = countO .Failed s.results ∧
  s.xpassed = countO .XPassed s.results ∧
  s.xfailed = countO .XFailed s.results ∧
  s.skipped = countO .Skipped s.results ∧
  s.errors = countO .Error s.results ∧
  s.rerun.getD 0 = countO .Rerun s.results

theorem countO_py_insort (l : List Outcome) (o a : Outcome) :
    countO a (py_insort outcomeLt l o) = (if o = a then 1 else 0) + countO a l := by
  have h := countO_perm (py_insort_perm outcomeLt l o) a
  simpa [countO] using h

theorem logreport_counters {s s' : HTMLState} {r : Report}
    (h : pytest_runtest_logreport s r = some s') (hinv : counters_match s) :
    counters_match s' := by
  obtain ⟨h1, h2, h3, h4, h5, h6, h7⟩ := hinv
  cases hro : r.outcome with
  | passed =>
    rw [pytest_runtest_logreport, hro] at h
    rw [append_passed] at h
    by_cases hw : r.when = some "call"
    · rw [if_pos hw] at h
      by_cases hx : r.wasxfail
      · rw [if_pos hx] at h
        obtain rfl := Option.some_injective _ h
        refine ⟨?_, ?_, ?_, ?_, ?_, ?_, ?_⟩ <;> simp [addRow, countO_py_insort] <;> omega
      · rw [if_neg hx] at h
        obtain rfl := Option.some_injective _ h
        refine ⟨?_, ?_, ?_, ?_, ?_, ?_, ?_⟩ <;> simp [addRow, countO_py_insort] <;> omega
    · rw [if_neg hw] at h
      obtain rfl := Option.some_injective _ h
      exact ⟨h1, h2, h3, h4, h5, h6, h7⟩
  | failed =>
    rw [pytest_runtest_logreport, hro] at h
    rw [append_failed] at h
    by_cases hw : r.when = some "call"
    · rw [if_pos hw] at h
      by_cases hx : r.wasxfail
      · rw [if_pos hx] at h
        obtain rfl := Option.some_injective _ h
        refine ⟨?_, ?_, ?_, ?_, ?_, ?_, ?_⟩ <;> simp [addRow, countO_py_insort] <;> omega
      · rw [if_neg hx] at h
        obtain rfl := Option.some_injective _ h
        refine ⟨?_, ?_, ?_, ?_, ?_, ?_, ?_⟩ <;> simp [addRow, countO_py_insort] <;> omega
    · rw [if_neg hw] at h
      obtain rfl := Option.some_injective _ h
      refine ⟨?_, ?_, ?_, ?_, ?_, ?_, ?_⟩ <;> simp [addRow, countO_py_insort] <;> omega
  | skipped =>
    rw [pytest_runtest_logreport, hro] at h
    rw [append_skipped] at h
    by_cases hx : r.wasxfail
    · rw [if_pos hx] at h
      obtain rfl := Option.some_injective _ h
      refine ⟨?_, ?_, ?_, ?_, ?_, ?_, ?_⟩ <;> simp [addRow, countO_py_insort] <;> omega
    · rw [if_neg hx] at h
      obtain rfl := Option.some_injective _ h
      refine ⟨?_, ?_, ?_, ?_, ?_, ?_, ?_⟩ <;> simp [addRow, countO_py_insort] <;> omega
  | other =>
    rw [pytest_runtest_logreport, hro] at h
    rw [append_other] at h
    cases hr : s.rerun with
    | none => rw [hr] at h; exact absurd h (by simp)
    | some n =>
      rw [hr] at h
      obtain rfl := Option.some_injective _ h
      rw [hr] at h7
      simp only [Option.getD_some] at h7
      refine ⟨?_, ?_, ?_, ?_, ?_, ?_, ?_⟩ <;> simp [addRow, countO_py_insort] <;> omega

theorem run_counters :
    ∀ (evs : List Report) (s s' : HTMLState), counters_match s →
      run_logreports s evs = some s' → counters_match s'
  | [], s, s', hinv, h => by
    rw [run_logreports] at h
    obtain rfl := Option.some_injective _ h
    exact hinv
  | r :: rs, s, s', hinv, h => by
    rw [run_logreports] at h
    cases hstep : pytest_runtest_logreport s r with
    | none => rw [hstep] at h; exact absurd h (by simp)
    | some s₁ =>
      rw [hstep] at h
      exact run_counters rs s₁ s' (logreport_counters hstep hinv) h

theorem length_eq_countO_sum (l : List Outcome) :
    l.length = countO .Passed l + countO .Failed l + countO .XPassed l + countO .XFailed l +
      countO .Skipped l + countO .Error l + countO .Rerun l := by
  induction l with
  | nil => rfl
  | cons o t ih => cases o <;> simp [countO] <;> omega

/-- `numtests` as computed by `_generate_report` (plugin.py line 431):
`self.passed + self.failed + self.xpassed + self.xfailed`. -/
def numtests (s : HTMLState) : Nat := s.passed + s.failed + s.xpassed + s.xfailed

/-- `MailResult.count = numtests` (plugin.py line 594): the total substituted
as the email's count field and shown in the report overview. -/
def mail_count (s : HTMLState) : Nat := numtests s

/-- Claim C10: after ingesting any event stream, the displayed and emailed
total equals exactly the number of records classified Passed, Failed,
XPassed or XFailed; records classified Skipped, Error or Rerun appear as
rows (they contribute to the row count and their own counters) but are
excluded from this total. -/
theorem c10_total_excludes_skipped_error_rerun (hr : Bool) (evs : List Report)
    (s : HTMLState) (h : run_logreports (initState hr) evs = some s) :
    mail_count s = countO .Passed s.results + countO .Failed s.results +
      countO .XPassed s.results + countO .XFailed s.results ∧
    s.results.length = mail_count s + s.skipped + s.errors + s.rerun.getD 0 := by
  have hinit : counters_match (initState hr) := by
    cases hr <;> exact ⟨rfl, rfl, rfl, rfl, rfl, rfl, rfl⟩
  have hinv := run_counters evs (initState hr) s hinit h
  obtain ⟨h1, h2, h3, h4, h5, h6, h7⟩ := hinv
  have hlen := length_eq_countO_sum s.results
  constructor
  · simp only [mail_count, numtests]; omega
  · simp only [mail_count, numtests]; omega

/-- A concrete event stream: one passed call event, one failed setup event. -/
def witnessEvents : List Report :=
  [{ when := some "call", outcome := .passed, wasxfail := false },
   { when := some "setup", outcome := .failed, wasxfail := false }]

/-- The aggregation state `witnessEvents` produces. -/
def witnessState : HTMLState :=
  { results := [Outcome.Error, Outcome.Passed], errors := 1, failed := 0,
    passed := 1, skipped := 0, xfailed := 0, xpassed := 0, rerun := some 0 }

/-- Witness for C10: a concrete run with one passed call event and one
failed setup event; the total counts the passed record only. -/
theorem c10_total_excludes_skipped_error_rerun_witness :
    mail_count witnessState = countO .Passed witnessState.results +
      countO .Failed witnessState.results + countO .XPassed witnessState.results +
      countO .XFailed witnessState.results ∧
    witnessState.results.length = mail_count witnessState + witnessState.skipped +
      witnessState.errors + witnessState.rerun.getD 0 :=
  c10_total_excludes_skipped_error_rerun true witnessEvents witnessState (by decide)

/-- ASCII model of the regex class `\w` used by `create_asset`
(plugin.py line 244): letters, digits and underscore. -/
def isWordChar (c : Char) : Bool := c.isAlphanum || c = '_'

/-- `re.sub(r"[^\w\.]", "_", self.test_id)` (plugin.py line 244): replace
every character that is neither a word character nor a dot by `_`.  The
class matches single characters, so the substitution is a character map. -/
def sanitize_test_id (s : List Char) : List Char :=
  s.map fun c => if isWordChar c || c = '.' then c else '_'

/-- Python's slice `s[-255:]`: the last 255 characters (the whole string
when shorter). -/
def py_last255 (l : List Char) : List Char := l.drop (l.length - 255)

/-- The asset file name computed by `TestResult.create_asset`
(plugin.py lines 243-248): `"{}_{}_{}.{}".format(re.sub(...), extra_index,
test_index, file_extension)[-255:]`. -/
def asset_file_name (testId : List Char) (extra_index test_index : Nat)
    (ext : List Char) : List Char :=
  py_last255 (sanitize_test_id testId ++ ('_' :: (Nat.repr extra_index).toList) ++
    ('_' :: (Nat.repr test_index).toList) ++ ('.' :: ext))

/-- The asset name of the spec's concrete example. -/
def example_asset_name : List Char :=
  asset_file_name "test/foo::bar".toList 0 0 "png".toList

/-- Claim C9: the asset filename for test id `test/foo::bar`, category index
0, rerun index 0, extension png contains no `/` or `:` and ends in
`_0_0.png`; and every computed filename is at most 255 characters long. -/
theorem c9_asset_file_name :
    ('/' ∉ example_asset_name ∧ ':' ∉ example_asset_name ∧
      "_0_0.png".toList.isSuffixOf example_asset_name = true) ∧
    ∀ (testId : List Char) (i t : Nat) (ext : List Char),
      (asset_file_name testId i t ext).length ≤ 255 := by
  constructor
  · decide
  · intro testId i t ext
    simp only [asset_file_name, py_last255, List.length_drop]
    omega

/-- Witness for C9's universal part at a further concrete input. -/
theorem c9_asset_file_name_witness :
    (asset_file_name "testing/test_calc.py::TestCalc::test_add".toList 3 1 "png".toList).length ≤
      255 :=
  c9_asset_file_name.2 "testing/test_calc.py::TestCalc::test_add".toList 3 1 "png".toList

/-- A filesystem effect: ensuring a directory exists (`os.makedirs`) or
writing a file (`open(..., "w")`).  Paths are lists of components. -/
inductive FsOp where
  | makedirs (path : List String)
  | writeFile (path : List String)
deriving DecidableEq, Repr

/-- The `extras.FORMAT_*` dispatch keys of `append_extra_html`. -/
inductive ExtraFormat where
  | image
  | html
  | json
  | text
  | url
  | video
deriving DecidableEq, Repr

/-- The attachment fields that determine which filesystem effects
`append_extra_html` performs: its format and, for media, whether the probe
`content.startswith(("file", "http")) or isfile(content)` succeeded. -/
structure Extra where
  format : ExtraFormat
  isUriOrPath : Bool
deriving DecidableEq, Repr

/-- Filesystem effects of `TestResult.create_asset` (plugin.py 239-261):
ensure the `assets` directory sibling to the report file exists, then write
the asset file beneath it. -/
def create_asset_ops (reportDir : List String) (name : String) : List FsOp :=
  [.makedirs (reportDir ++ ["assets"]), .writeFile (reportDir ++ ["assets", name])]

/-- Filesystem effects of one `append_extra_html` call (plugin.py 263-306),
with `_make_media_html_div` (338-364) for image/video: an asset file is
written only outside self-contained mode, and only for media that is not an
external URI/path, for json, and for text. -/
def append_extra_ops (selfContained : Bool) (reportDir : List String) (name : String)
    (e : Extra) : List FsOp :=
  match e.format with
  | .image =>
    if e.isUriOrPath then []
    else if selfContained then [] else create_asset_ops reportDir name
  | .video =>
    if e.isUriOrPath then []
    else if selfContained then [] else create_asset_ops reportDir name
  | .html => []
  | .json => if selfContained then [] else create_asset_ops reportDir name
  | .text => if selfContained then [] else create_asset_ops reportDir name
  | .url => []

/-- Filesystem effects of `HTMLReport._save_report` (plugin.py 635-649):
ensure the report directory, create `assets` only when not self-contained,
write the report, and write the stylesheet under `assets` only when not
self-contained. -/
def save_report_ops (selfContained : Bool) (reportDir : List String)
    (reportName : String) : List FsOp :=
  [FsOp.makedirs reportDir] ++
    (if selfContained then [] else [FsOp.makedirs (reportDir ++ ["assets"])]) ++
    [FsOp.writeFile (reportDir ++ [reportName])] ++
    (if selfContained then [] else [FsOp.writeFile (reportDir ++ ["assets", "style.css"])])

/-- An operation that creates the `assets` directory or writes a file
beneath it. -/
def assets_op (reportDir : List String) : FsOp → Prop
  | .makedirs p => p = reportDir ++ ["assets"]
  | .writeFile p => ∃ rest, p = reportDir ++ "assets" :: rest ∧ rest ≠ []

/-- Claim C7: in self-contained mode neither attachment rendering nor report
saving ever creates an `assets` directory or writes a file beneath it; when
self-contained mode is off, saving always creates the `assets` directory
and writes the stylesheet beneath it, and every stored attachment is
written beneath it. -/
theorem c7_assets_dir (reportDir : List String) (reportName name : String) (e : Extra) :
    (append_extra_ops true reportDir name e = [] ∧
      ∀ op ∈ save_report_ops true reportDir reportName, ¬ assets_op reportDir op) ∧
    (FsOp.makedirs (reportDir ++ ["assets"]) ∈ save_report_ops false reportDir reportName ∧
      FsOp.writeFile (reportDir ++ ["assets", "style.css"]) ∈
        save_report_ops false reportDir reportName ∧
      ∀ p, FsOp.writeFile p ∈ append_extra_ops false reportDir name e →
        p = reportDir ++ ["assets", name]) := by
  obtain ⟨f, u⟩ := e
  refine ⟨⟨?_, ?_⟩, ?_, ?_, ?_⟩
  · cases f <;> cases u <;> simp [append_extra_ops]
  · intro op hop
    have hops : save_report_ops true reportDir reportName =
        [FsOp.makedirs reportDir, FsOp.writeFile (reportDir ++ [reportName])] := by
      simp [save_report_ops]
    rw [hops] at hop
    rcases List.mem_cons.mp hop with rfl | hop
    · simp only [assets_op]
      intro heq
      have hlen := congrArg List.length heq
      simp at hlen
    · rcases List.mem_cons.mp hop with rfl | hop
      · simp only [assets_op]
        rintro ⟨rest, hres, hne⟩
        have htail : [reportName] = "assets" :: rest := List.append_cancel_left hres
        cases rest with
        | nil => exact hne rfl
        | cons a as => simp at htail
      · simp at hop
  · simp [save_report_ops]
  · simp [save_report_ops]
  · intro p hp
    cases f <;> cases u <;>
      simp [append_extra_ops, create_asset_ops] at hp <;> simp [hp]

/-- Witness for C7 at concrete paths and a concrete json attachment. -/
theorem c7_assets_dir_witness :
    (append_extra_ops true ["out"] "t_0_0.json" { format := .json, isUriOrPath := false } = [] ∧
      ∀ op ∈ save_report_ops true ["out"] "report.html", ¬ assets_op ["out"] op) ∧
    (FsOp.makedirs (["out"] ++ ["assets"]) ∈ save_report_ops false ["out"] "report.html" ∧
      FsOp.writeFile (["out"] ++ ["assets", "style.css"]) ∈
        save_report_ops false ["out"] "report.html" ∧
      ∀ p, FsOp.writeFile p ∈ append_extra_ops false ["out"] "t_0_0.json"
          { format := .json, isUriOrPath := false } →
        p = ["out"] ++ ["assets", "t_0_0.json"]) :=
  c7_assets_dir ["out"] "report.html" "t_0_0.json" { format := .json, isUriOrPath := false }

/-- The standard base64 alphabet used by `base64.b64encode`. -/
def b64chars : List Char :=
  ['A', 'B', 'C', 'D', 'E', 'F', 'G', 'H', 'I', 'J', 'K', 'L', 'M',
   'N', 'O', 'P', 'Q', 'R', 'S', 'T', 'U', 'V', 'W', 'X', 'Y', 'Z',
   'a', 'b', 'c', 'd', 'e', 'f', 'g', 'h', 'i', 'j', 'k', 'l', 'm',
   'n', 'o', 'p', 'q', 'r', 's', 't', 'u', 'v', 'w', 'x', 'y', 'z',
   '0', '1', '2', '3', '4', '5', '6', '7', '8', '9', '+', '/']

def b64char (n : Nat) : Char := b64chars.getD n '?'

def b64index (c : Char) : Nat := b64chars.indexOf c

/-- `base64.b64encode` on a byte sequence: emit four alphabet characters
per three bytes, padding a final group of one or two bytes with `=`. -/
def b64encode : List Nat → List Char
  | a :: b :: c :: rest =>
    b64char (a / 4) :: b64char (a % 4 * 16 + b / 16) ::
      b64char (b % 16 * 4 + c / 64) :: b64char (c % 64) :: b64encode rest
  | [a, b] => [b64char (a / 4), b64char (a % 4 * 16 + b / 16), b64char (b % 16 * 4), '=']
  | [a] => [b64char (a / 4), b64char (a % 4 * 16), '=', '=']
  | [] => []

/-- `base64.b64decode` on well-padded base64 text: decode four characters
per three bytes, a trailing `=` or `==` marking a short final group. -/
def b64decode : List Char → List Nat
  | c1 :: c2 :: c3 :: c4 :: rest =>
    if c3 = '=' then [b64index c1 * 4 + b64index c2 / 16]
    else if c4 = '=' then
      [b64index c1 * 4 + b64index c2 / 16, b64index c2 % 16 * 16 + b64index c3 / 4]
    else
      (b64index c1 * 4 + b64index c2 / 16) ::
        (b64index c2 % 16 * 16 + b64index c3 / 4) ::
        (b64index c3 % 4 * 64 + b64index c4) :: b64decode rest
  | _ => []

theorem b64index_b64char : ∀ k : Fin 64, b64index (b64char k.val) = k.val := by
  decide

theorem b64char_ne_pad : ∀ k : Fin 64, b64char k.val ≠ '=' := by
  decide

theorem b64_roundtrip_aux :
    ∀ (n : Nat) (bs : List Nat), bs.length ≤ n → (∀ x ∈ bs, x < 256) →
      b64decode (b64encode bs) = bs
  | _, [], _, _ => rfl
  | _, [a], _, h => by
    have ha : a < 256 := h a (by simp)
    have i1 := b64index_b64char ⟨a / 4, by omega⟩
    have i2 := b64index_b64char ⟨a % 4 * 16, by omega⟩
    have n1 := b64char_ne_pad ⟨a / 4, by omega⟩
    have n2 := b64char_ne_pad ⟨a % 4 * 16, by omega⟩
    simp only [b64encode, b64decode, if_neg n2, if_pos rfl] at *
    simp only [i1, i2]
    simp
    omega
  | _, [a, b], _, h => by
    have ha : a < 256 := h a (by simp)
    have hb : b < 256 := h b (by simp)
    have i1 := b64index_b64char ⟨a / 4, by omega⟩
    have i2 := b64index_b64char ⟨a % 4 * 16 + b / 16, by omega⟩
    have i3 := b64index_b64char ⟨b % 16 * 4, by omega⟩
    have n3 := b64char_ne_pad ⟨b % 16 * 4, by omega⟩
    simp only [b64encode, b64decode, if_neg n3, if_pos rfl]
    simp only [i1, i2, i3]
    simp
    omega
  | Nat.succ n, a :: b :: c :: rest, hlen, h => by
    have ha : a < 256 := h a (by simp)
    have hb : b < 256 := h b (by simp)
    have hc : c < 256 := h c (by simp)
    have i1 := b64index_b64char ⟨a / 4, by omega⟩
    have i2 := b64index_b64char ⟨a % 4 * 16 + b / 16, by omega⟩
    have i3 := b64index_b64char ⟨b % 16 * 4 + c / 64, by omega⟩
    have i4 := b64index_b64char ⟨c % 64, by omega⟩
    have n3 := b64char_ne_pad ⟨b % 16 * 4 + c / 64, by omega⟩
    have n4 := b64char_ne_pad ⟨c % 64, by omega⟩
    have hrest : b64decode (b64encode rest) = rest := by
      have hlen' : rest.length ≤ n := by
        simp only [List.length_cons] at hlen
        omega
      exact b64_roundtrip_aux n rest hlen' fun x hx => h x (by simp [hx])
    simp only [b64encode, b64decode, if_neg n3, if_neg n4]
    simp only [i1, i2, i3, i4, hrest]
    simp
    omega
  | 0, _ :: _ :: _ :: _, hlen, _ => by simp at hlen

/-- Base64 decoding inverts encoding on byte sequences. -/
theorem b64_roundtrip (bs : List Nat) (h : ∀ x ∈ bs, x < 256) :
    b64decode (b64encode bs) = bs :=
  b64_roundtrip_aux bs.length bs le_rfl h

/-- The fixed text preceding the payload of a `data_uri` result
(plugin.py line 124) for the given mime type: the data-URI prefix the
round-trip strips. -/
def data_uri_head (mime : List Char) : List Char :=
  "data:".toList ++ mime ++ ";charset=utf-8;base64,".toList

/-- `data_uri(content, mime_type)` (plugin.py lines 122-124): the content's
UTF-8 bytes, base64-encoded, behind the data-URI prefix.  The content
string is represented by its UTF-8 byte sequence. -/
def data_uri (contentBytes : List Nat) (mime : List Char) : List Char :=
  data_uri_head mime ++ b64encode contentBytes

/-- The href computed by the JSON branch of `append_extra_html` in
self-contained mode (plugin.py lines 271-274): `data_uri(json.dumps(content),
mime_type=extra.get("mime_type"))`, with the serialized JSON text
represented by its UTF-8 bytes. -/
def json_attachment_href (jsonBytes : List Nat) (mime : List Char) : List Char :=
  data_uri jsonBytes mime

/-- Claim C8: stripping the data-URI prefix from a self-contained JSON
attachment's href and base64-decoding the remainder yields exactly the
serialized JSON text (as UTF-8 bytes) of the original attachment content. -/
theorem c8_json_data_uri_roundtrip (jsonBytes : List Nat) (mime : List Char)
    (h : ∀ x ∈ jsonBytes, x < 256) :
    b64decode ((json_attachment_href jsonBytes mime).drop (data_uri_head mime).length) =
      jsonBytes := by
  have hdrop : (json_attachment_href jsonBytes mime).drop (data_uri_head mime).length =
      b64encode jsonBytes := by
    simp only [json_attachment_href, data_uri]
    exact List.drop_left _ _
  rw [hdrop]
  exact b64_roundtrip jsonBytes h

/-- Witness for C8 on the UTF-8 bytes of a small JSON text with mime type
`application/json`. -/
theorem c8_json_data_uri_roundtrip_witness :
    b64decode ((json_attachment_href [123, 34, 97, 34, 58, 32, 49, 125]
        "application/json".toList).drop
      (data_uri_head "application/json".toList).length) =
      [123, 34, 97, 34, 58, 32, 49, 125] :=
  c8_json_data_uri_roundtrip [123, 34, 97, 34, 58, 32, 49, 125]
    "application/json".toList (by decide)

/-- Python exceptions relevant to the embedded mail code. -/
inductive PyExc where
  | smtpException
  | nameError
  | zeroDivisionError
deriving DecidableEq, Repr

/-- Abstract behaviour of the mail transport during one `SMTP.sender` call:
which of the three transport steps (`smtplib.SMTP_SSL(...)`, `smtp.login`,
`smtp.sendmail`) raises first, if any. -/
inductive MailTransport where
  | connectRaise
  | loginRaise
  | sendRaise
  | ok
deriving DecidableEq, Repr

/-- Result of the try-block of `SMTP.sender` (plugin.py lines 763-767):
whether the local name `smtp` got bound, whether the success message
printed, and the exception escaping the block, if any.  The block runs
`smtp = smtplib.SMTP_SSL(...)`, `smtp.login(...)`, `smtp.sendmail(...)`,
`print(success)` in order; `smtp` is bound only if the first step returns. -/
def sender_try (b : MailTransport) : Bool × Bool × Option PyExc :=
  if b = .connectRaise then (false, false, some .smtpException)
  else if b = .loginRaise then (true, false, some .smtpException)
  else if b = .sendRaise then (true, false, some .smtpException)
  else (true, true, none)

/-- Observable outcome of a whole `SMTP.sender` transport phase: whether the
failure message was printed, whether the success message was printed,
whether `smtp.quit()` ran, and the exception propagating to the caller. -/
structure SenderRun where
  consoleFail : Bool
  consoleOk : Bool
  quitCalled : Bool
  raised : Option PyExc
deriving DecidableEq, Repr

/-- The try/except/finally of `SMTP.sender` (plugin.py lines 763-771), by
Python semantics: `except BaseException` catches any exception from the body
and prints the failure message; the `finally` block then evaluates
`smtp.quit()`.  When the body raised inside `smtplib.SMTP_SSL(...)` the
local name `smtp` was never bound, so the finally block itself raises
`NameError`, which propagates to the caller. -/
def sender_transport (b : MailTransport) : SenderRun :=
  let t := sender_try b
  let bound := t.1
  let okPrinted := t.2.1
  let exc := t.2.2
  if bound then
    { consoleFail := exc.isSome, consoleOk := okPrinted, quitCalled := true, raised := none }
  else
    { consoleFail := exc.isSome, consoleOk := okPrinted, quitCalled := false,
      raised := some .nameError }

/-- The run `SMTP.sender` produces when establishing the connection raises:
the failure is logged, no session is ever closed, and a `NameError`
escapes from the finally block. -/
def connect_failure_run : SenderRun :=
  { consoleFail := true, consoleOk := false, quitCalled := false, raised := some .nameError }

/-- Claim C3 names a code bug: when `smtplib.SMTP_SSL(...)` raises, the
transport failure is caught and logged, but the finally block references
the unbound local `smtp` and raises `NameError` to the caller, and no
session is closed; failures of login or sendmail (after a successful
connection) behave as the claim states. -/
theorem c3_sender_connect_failure :
    sender_transport .connectRaise = connect_failure_run ∧
    (sender_transport .loginRaise).raised = none ∧
    (sender_transport .loginRaise).quitCalled = true ∧
    (sender_transport .loginRaise).consoleFail = true ∧
    (sender_transport .sendRaise).raised = none ∧
    (sender_transport .sendRaise).quitCalled = true ∧
    (sender_transport .ok).raised = none ∧
    (sender_transport .ok).quitCalled = true := by
  decide

/-- The summary fields `_generate_report` stores into `MailResult`
(plugin.py lines 133-145 and 592-600). -/
structure MailResult where
  title : String
  count : Nat
  passed : Nat
  failed : Nat
  xfailed : Nat
  xpassed : Nat
  errors : Nat
  skipped : Nat
deriving DecidableEq, Repr

/-- Python's true division, which raises `ZeroDivisionError` on a zero
divisor; the float value is modelled as an exact rational. -/
def py_div (a b : ℚ) : Except PyExc ℚ :=
  if b = 0 then .error .zeroDivisionError else .ok (a / b)

/-- `format(x, '.1f')` for the non-negative values arising here: the value
rendered with exactly one digit after the decimal point, rounding to the
nearest tenth. -/
def format_1f (q : ℚ) : String :=
  toString (round (q * 10) / 10) ++ "." ++ (round (q * 10) % 10).toNat.repr

/-- The `render_params` dictionary built by `SMTP.output_email`
(plugin.py lines 698-708).  Building it evaluates
`MailResult.passed / MailResult.count * 100`, which raises
`ZeroDivisionError` when the count is zero: there is no guard. -/
def render_params (m : MailResult) : Except PyExc (List (String × String)) := do
  let rate ← py_div (m.passed : ℚ) (m.count : ℚ)
  .ok [("mail_title", m.title), ("mail_count", m.count.repr),
       ("mail_passed", m.passed.repr), ("mail_failed", m.failed.repr),
       ("mail_xfailed", m.xfailed.repr), ("mail_xpassed", m.xpassed.repr),
       ("mail_errors", m.errors.repr), ("mail_skipped", m.skipped.repr),
       ("mail_rate", format_1f (rate * 100))]

/-- `render_template` inside `SMTP.output_email` (plugin.py lines 691-695):
replace each `$\x7bname\x7d` placeholder by its value. -/
def render_template (params : List (String × String)) (template : String) : String :=
  params.foldl (fun t p => t.replace ("$\x7b" ++ p.1 ++ "\x7d") p.2) template

/-- `SMTP.output_email` (plugin.py lines 690-713) applied to the mail
template text read from `mail.html`. -/
def output_email (m : MailResult) (template : String) : Except PyExc String := do
  let ps ← render_params m
  .ok (render_template ps template)

theorem repr_length_one : ∀ d : Nat, d < 10 → d.repr.length = 1 := by
  intro d hd
  interval_cases d <;> rfl

/-- Claim C4: `output_email` substitutes a pass rate computed as
`passed / count * 100` formatted to exactly one decimal place into the
body; the division has no guard, so a zero count raises
`ZeroDivisionError` instead of producing a fallback value. -/
theorem c4_rate_divide_by_zero (m : MailResult) (template : String) :
    (m.count = 0 → output_email m template = .error .zeroDivisionError) ∧
    (m.count ≠ 0 →
      ∃ ps, render_params m = .ok ps ∧
        output_email m template = .ok (render_template ps template) ∧
        ps.lookup "mail_rate" =
          some (format_1f ((m.passed : ℚ) / (m.count : ℚ) * 100)) ∧
        ∃ d : Nat, d < 10 ∧ d.repr.length = 1 ∧
          format_1f ((m.passed : ℚ) / (m.count : ℚ) * 100) =
            toString (round ((m.passed : ℚ) / (m.count : ℚ) * 100 * 10) / 10) ++
              "." ++ d.repr) := by
  constructor
  · intro h0
    simp [output_email, render_params, py_div, h0, Bind.bind, Except.bind]
  · intro h0
    have hc : (m.count : ℚ) ≠ 0 := Nat.cast_ne_zero.mpr h0
    have hps : render_params m = .ok
        [("mail_title", m.title), ("mail_count", m.count.repr),
         ("mail_passed", m.passed.repr), ("mail_failed", m.failed.repr),
         ("mail_xfailed", m.xfailed.repr), ("mail_xpassed", m.xpassed.repr),
         ("mail_errors", m.errors.repr), ("mail_skipped", m.skipped.repr),
         ("mail_rate", format_1f ((m.passed : ℚ) / (m.count : ℚ) * 100))] := by
      simp [render_params, py_div, hc, Bind.bind, Except.bind]
    refine ⟨_, hps, ?_, ?_, ?_⟩
    · simp [output_email, hps, Bind.bind, Except.bind]
    · rfl
    · refine ⟨(round ((m.passed : ℚ) / (m.count : ℚ) * 100 * 10) % 10).toNat, ?_, ?_, rfl⟩
      · have h1 : (0 : ℤ) ≤ round ((m.passed : ℚ) / (m.count : ℚ) * 100 * 10) % 10 :=
          Int.emod_nonneg _ (by norm_num)
        have h2 : round ((m.passed : ℚ) / (m.count : ℚ) * 100 * 10) % 10 < 10 :=
          Int.emod_lt_of_pos _ (by norm_num)
        omega
      · apply repr_length_one
        have h1 : (0 : ℤ) ≤ round ((m.passed : ℚ) / (m.count : ℚ) * 100 * 10) % 10 :=
          Int.emod_nonneg _ (by norm_num)
        have h2 : round ((m.passed : ℚ) / (m.count : ℚ) * 100 * 10) % 10 < 10 :=
          Int.emod_lt_of_pos _ (by norm_num)
        omega

/-- A run summary with no tests at all. -/
def mailResultEmpty : MailResult :=
  { title := "t", count := 0, passed := 0, failed := 0, xfailed := 0,
    xpassed := 0, errors := 0, skipped := 0 }

/-- A run summary with one of two tests passed. -/
def mailResultHalf : MailResult :=
  { title := "t", count := 2, passed := 1, failed := 1, xfailed := 0,
    xpassed := 0, errors := 0, skipped := 0 }

/-- Witness for C4: a zero count raises, and a run with one of two tests
passed renders a rate. -/
theorem c4_rate_divide_by_zero_witness :
    (output_email mailResultEmpty "$\x7bmail_rate\x7d" = .error .zeroDivisionError) ∧
    ∃ ps, render_params mailResultHalf = .ok ps ∧
      output_email mailResultHalf "$\x7bmail_rate\x7d" =
        .ok (render_template ps "$\x7bmail_rate\x7d") ∧
      ps.lookup "mail_rate" =
        some (format_1f ((mailResultHalf.passed : ℚ) / (mailResultHalf.count : ℚ) * 100)) ∧
      ∃ d : Nat, d < 10 ∧ d.repr.length = 1 ∧
        format_1f ((mailResultHalf.passed : ℚ) / (mailResultHalf.count : ℚ) * 100) =
          toString (round ((mailResultHalf.passed : ℚ) / (mailResultHalf.count : ℚ) *
            100 * 10) / 10) ++ "." ++ d.repr :=
  ⟨(c4_rate_divide_by_zero mailResultEmpty "$\x7bmail_rate\x7d").1 rfl,
   (c4_rate_divide_by_zero mailResultHalf "$\x7bmail_rate\x7d").2 (by decide)⟩

end PytestHtmlCn
